import Mathlib

/-!
Verification development for the ishu issue tracker (src/ishu).

The Python sources are shallowly embedded:
pure functions become Lean functions, the filesystem store becomes an
explicit list of on-disk issue records, Python sets become Finset, Python
strings become String (or List Char where character structure matters),
and fallible code returns Option or Except / an outcome value.
-/

set_option maxHeartbeats 1000000

namespace Ishu

/-!
Generic sorting infrastructure.  Python's sorted builtin is a stable sort
returning a list; it is embedded as an insertion sort (stable, and
reducible by the kernel so that witnesses can evaluate it), lifted to
Finset for sorting Python sets.
-/

/-- Code-point comparison of character lists: the order Python uses on
strings. -/
def charsLE : List Char → List Char → Bool
  | [], _ => true
  | _ :: _, [] => false
  | a :: as, b :: bs =>
    if a.toNat < b.toNat then true
    else if b.toNat < a.toNat then false
    else charsLE as bs

lemma charsLE_total : ∀ as bs : List Char, charsLE as bs = true ∨ charsLE bs as = true := by
  intro as
  induction as with
  | nil => intro bs; exact Or.inl rfl
  | cons a as ih =>
    intro bs
    cases bs with
    | nil => exact Or.inr rfl
    | cons b bs =>
      by_cases h1 : a.toNat < b.toNat
      · exact Or.inl (by simp [charsLE, h1])
      · by_cases h2 : b.toNat < a.toNat
        · exact Or.inr (by simp [charsLE, h2])
        · rcases ih bs with h | h
          · exact Or.inl (by simp [charsLE, h1, h2, h])
          · exact Or.inr (by simp [charsLE, h1, h2, h])

lemma charsLE_trans : ∀ as bs cs : List Char,
    charsLE as bs = true → charsLE bs cs = true → charsLE as cs = true := by
  intro as
  induction as with
  | nil => intro bs cs _ _; rfl
  | cons a as ih =>
    intro bs cs h1 h2
    cases bs with
    | nil => simp [charsLE] at h1
    | cons b bs =>
      cases cs with
      | nil => simp [charsLE] at h2
      | cons c cs =>
        simp only [charsLE] at h1 h2 ⊢
        split_ifs at h1 h2 ⊢ <;>
          first
            | rfl
            | omega
            | exact ih bs cs h1 h2

lemma char_toNat_inj {a b : Char} (h : a.toNat = b.toNat) : a = b :=
  Char.ext (UInt32.ext h)

lemma charsLE_antisymm : ∀ as bs : List Char,
    charsLE as bs = true → charsLE bs as = true → as = bs := by
  intro as
  induction as with
  | nil =>
    intro bs h1 h2
    cases bs with
    | nil => rfl
    | cons b bs => simp [charsLE] at h2
  | cons a as ih =>
    intro bs h1 h2
    cases bs with
    | nil => simp [charsLE] at h1
    | cons b bs =>
      simp only [charsLE] at h1 h2
      by_cases hab : a.toNat < b.toNat
      · rw [if_neg (by omega), if_pos hab] at h2
        simp at h2
      · by_cases hba : b.toNat < a.toNat
        · rw [if_neg hab, if_pos hba] at h1
          simp at h1
        · rw [if_neg hab, if_neg hba] at h1
          rw [if_neg hba, if_neg hab] at h2
          rw [char_toNat_inj (by omega : a.toNat = b.toNat), ih bs h1 h2]

/-- Python string comparison via code points. -/
def strLE (a b : String) : Bool := charsLE a.data b.data

lemma strLE_total (a b : String) : strLE a b = true ∨ strLE b a = true :=
  charsLE_total a.data b.data

lemma strLE_trans (a b c : String) (h1 : strLE a b = true) (h2 : strLE b c = true) :
    strLE a c = true :=
  charsLE_trans a.data b.data c.data h1 h2

lemma strLE_antisymm (a b : String) (h1 : strLE a b = true) (h2 : strLE b a = true) :
    a = b := by
  cases a; cases b
  exact congrArg String.mk (charsLE_antisymm _ _ h1 h2)

/-- Inserts an element before the first list element it compares at most
equal to; the building block of the stable insertion sort. -/
def insertSorted {α : Type} (le : α → α → Bool) (x : α) : List α → List α
  | [] => [x]
  | y :: ys => if le x y then x :: y :: ys else y :: insertSorted le x ys

/-- Stable insertion sort, the embedding of Python's sorted builtin. -/
def isort {α : Type} (le : α → α → Bool) : List α → List α
  | [] => []
  | x :: xs => insertSorted le x (isort le xs)

lemma insertSorted_perm {α : Type} (le : α → α → Bool) (x : α) :
    ∀ l : List α, List.Perm (insertSorted le x l) (x :: l) := by
  intro l
  induction l with
  | nil => rfl
  | cons y ys ih =>
    rw [insertSorted]
    split_ifs
    · rfl
    · exact (ih.cons y).trans (List.Perm.swap x y ys)

lemma isort_perm {α : Type} (le : α → α → Bool) :
    ∀ l : List α, List.Perm (isort le l) l := by
  intro l
  induction l with
  | nil => rfl
  | cons x xs ih => exact (insertSorted_perm le x (isort le xs)).trans (ih.cons x)

/-- Stability: sorting a list that is pairwise R with a total transitive
comparison yields a list that is pairwise ordered by the comparison and,
on ties, still pairwise R. -/
lemma pairwise_insertSorted {α : Type} (le : α → α → Bool) (R : α → α → Prop)
    (htot : ∀ a b, le a b = true ∨ le b a = true)
    (htrans : ∀ a b c, le a b = true → le b c = true → le a c = true)
    (x : α) (l : List α)
    (hl : l.Pairwise (fun a b => le a b = true ∧ (le b a = true → R a b)))
    (hx : ∀ y ∈ l, R x y) :
    (insertSorted le x l).Pairwise
      (fun a b => le a b = true ∧ (le b a = true → R a b)) := by
  induction l with
  | nil => simp [insertSorted]
  | cons y ys ih =>
    rw [insertSorted]
    rcases List.pairwise_cons.mp hl with ⟨hyall, hys⟩
    by_cases hxy : le x y = true
    · rw [if_pos hxy]
      refine List.Pairwise.cons ?_ hl
      intro z hz
      rcases List.mem_cons.mp hz with rfl | hz2
      · exact ⟨hxy, fun _ => hx z (List.mem_cons_self _ _)⟩
      · exact ⟨htrans x y z hxy (hyall z hz2).1,
          fun _ => hx z (List.mem_cons_of_mem _ hz2)⟩
    · rw [if_neg hxy]
      have hyx : le y x = true := (htot x y).resolve_left hxy
      refine List.Pairwise.cons ?_ (ih hys (fun z hz => hx z (List.mem_cons_of_mem _ hz)))
      intro z hz
      rcases List.mem_cons.mp ((insertSorted_perm le x ys).mem_iff.mp hz) with rfl | hz2
      · exact ⟨hyx, fun h2 => absurd h2 hxy⟩
      · exact hyall z hz2

lemma pairwise_isort {α : Type} (le : α → α → Bool) (R : α → α → Prop)
    (htot : ∀ a b, le a b = true ∨ le b a = true)
    (htrans : ∀ a b c, le a b = true → le b c = true → le a c = true)
    (l : List α) (hl : l.Pairwise R) :
    (isort le l).Pairwise (fun a b => le a b = true ∧ (le b a = true → R a b)) := by
  induction l with
  | nil => simp [isort]
  | cons x xs ih =>
    rw [isort]
    rcases List.pairwise_cons.mp hl with ⟨hxall, hxs⟩
    exact pairwise_insertSorted le R htot htrans x (isort le xs) (ih hxs)
      (fun y hy => hxall y ((isort_perm le xs).mem_iff.mp hy))

lemma pairwise_isort_le {α : Type} (le : α → α → Bool)
    (htot : ∀ a b, le a b = true ∨ le b a = true)
    (htrans : ∀ a b c, le a b = true → le b c = true → le a c = true)
    (l : List α) : (isort le l).Pairwise (fun a b => le a b = true) := by
  have htriv : l.Pairwise (fun _ _ => True) := by
    induction l with
    | nil => exact List.Pairwise.nil
    | cons a t iht => exact List.Pairwise.cons (fun _ _ => trivial) iht
  exact (pairwise_isort le (fun _ _ => True) htot htrans l htriv).imp (fun h => h.1)

/-- Sorted enumeration of a Finset: the embedding of Python's
sorted(some_set); well defined because the comparison is total,
transitive and antisymmetric. -/
def finsetSortBy {α : Type} (le : α → α → Bool)
    (htot : ∀ a b, le a b = true ∨ le b a = true)
    (htrans : ∀ a b c, le a b = true → le b c = true → le a c = true)
    (hanti : ∀ a b, le a b = true → le b a = true → a = b)
    (s : Finset α) : List α :=
  Quot.liftOn s.val (fun l => isort le l) (fun l1 l2 h => by
    letI : IsTrans α (fun a b => le a b = true) := ⟨htrans⟩
    letI : IsAntisymm α (fun a b => le a b = true) := ⟨hanti⟩
    exact List.eq_of_perm_of_sorted
      ((isort_perm le l1).trans (h.trans (isort_perm le l2).symm))
      (pairwise_isort_le le htot htrans l1)
      (pairwise_isort_le le htot htrans l2))

lemma finsetSortBy_coe {α : Type} (le : α → α → Bool) (htot htrans hanti)
    (s : Finset α) :
    (finsetSortBy le htot htrans hanti s : Multiset α) = s.val := by
  rcases s with ⟨m, hm⟩
  induction m using Quot.inductionOn with
  | h l => exact Quot.sound (isort_perm le l)

lemma finsetSortBy_toFinset {α : Type} [DecidableEq α] (le : α → α → Bool)
    (htot htrans hanti) (s : Finset α) :
    (finsetSortBy le htot htrans hanti s).toFinset = s := by
  have h := finsetSortBy_coe le htot htrans hanti s
  show Multiset.toFinset _ = s
  rw [h]
  exact Finset.val_toFinset s

lemma finsetSortBy_nodup {α : Type} (le : α → α → Bool) (htot htrans hanti)
    (s : Finset α) : (finsetSortBy le htot htrans hanti s).Nodup := by
  have h := finsetSortBy_coe le htot htrans hanti s
  have := s.nodup
  rw [← h] at this
  exact this

lemma finsetSortBy_pairwise {α : Type} (le : α → α → Bool) (htot htrans hanti)
    (s : Finset α) :
    (finsetSortBy le htot htrans hanti s).Pairwise (fun a b => le a b = true) := by
  rcases s with ⟨m, hm⟩
  induction m using Quot.inductionOn with
  | h l => exact pairwise_isort_le le htot htrans l

lemma finsetSortBy_mem {α : Type} (le : α → α → Bool) (htot htrans hanti)
    (s : Finset α) (x : α) :
    x ∈ finsetSortBy le htot htrans hanti s ↔ x ∈ s := by
  have h := finsetSortBy_coe le htot htrans hanti s
  rw [← Multiset.mem_coe, h]
  exact Finset.mem_val

/-- Embeds IssueID from src/ishu/models.py (a NamedTuple of user and num). -/
structure IssueID where
  user : String
  num : Nat
  deriving DecidableEq, Repr

/-- Embeds the IssueStatus enum from src/ishu/models.py: members OPEN,
CLOSED, FIXED, WONTFIX with the string values below. -/
inductive IssueStatus where
  | OPEN
  | CLOSED
  | FIXED
  | WONTFIX
  deriving DecidableEq, Repr

/-- Embeds the value attribute of each IssueStatus enum member. -/
def IssueStatus.value : IssueStatus → String
  | .OPEN => "open"
  | .CLOSED => "closed"
  | .FIXED => "fixed"
  | .WONTFIX => "wontfix"

/-- Embeds one entry of the log list built by Issue.save: a JSON object
holding the previous value of each changed field (absent keys are none)
plus the timestamp key that is always set when the entry is appended. -/
structure LogEntry where
  description : Option String
  tags : Option (List String)
  blocked_by : Option (List (Nat × String))
  status : Option String
  timestamp : String
  deriving DecidableEq, Repr

/-- Embeds the in-memory Issue NamedTuple from src/ishu/models.py.
Comments live in sibling files and are neither read nor written by
Issue.save, so the comments field is omitted here; the original_* fields
are the load-time snapshots used for the log diff. -/
structure Issue where
  id : IssueID
  created : String
  updated : String
  description : String
  tags : Finset String
  blockedBy : Finset IssueID
  status : IssueStatus
  log : List LogEntry
  originalDescription : String
  originalTags : Finset String
  originalBlockedBy : Finset IssueID
  originalStatus : IssueStatus
  deriving DecidableEq

/-- Embeds the JSON document written by Issue.save (the per-issue file on
disk): tags are persisted as a sorted list and blocked_by as a list of
pairs of num and user sorted by num. -/
structure IssueRec where
  id : IssueID
  created : String
  updated : String
  description : String
  tags : List String
  blocked_by : List (Nat × String)
  status : IssueStatus
  log : List LogEntry
  deriving DecidableEq, Repr

/-- Embeds the sorted call on a Python set of strings used by Issue.save
for tags. -/
def sortStrings (s : Finset String) : List String :=
  finsetSortBy strLE strLE_total strLE_trans strLE_antisymm s

/-- Orders IssueIDs by num first and user second; embeds the sorted call
with key num in encode_blocks (Python leaves the order of equal nums
unspecified since the input is a set, so ties are determinized by user). -/
def idLE (a b : IssueID) : Bool :=
  if a.num < b.num then true
  else if b.num < a.num then false
  else strLE a.user b.user

lemma idLE_iff (a b : IssueID) : idLE a b = true ↔
    (a.num < b.num ∨ (a.num = b.num ∧ strLE a.user b.user = true)) := by
  unfold idLE
  split_ifs with h1 h2
  · simp [h1]
  · refine ⟨fun hx => absurd hx (by simp), fun hx => ?_⟩
    rcases hx with h | ⟨he, _⟩ <;> omega
  · have he : a.num = b.num := by omega
    simp [he]

lemma idLE_total (a b : IssueID) : idLE a b = true ∨ idLE b a = true := by
  rw [idLE_iff, idLE_iff]
  rcases Nat.lt_trichotomy a.num b.num with h | h | h
  · exact Or.inl (Or.inl h)
  · rcases strLE_total a.user b.user with hs | hs
    · exact Or.inl (Or.inr ⟨h, hs⟩)
    · exact Or.inr (Or.inr ⟨h.symm, hs⟩)
  · exact Or.inr (Or.inl h)

lemma idLE_trans (a b c : IssueID) (h1 : idLE a b = true) (h2 : idLE b c = true) :
    idLE a c = true := by
  rw [idLE_iff] at h1 h2 ⊢
  rcases h1 with h1 | ⟨h1e, h1s⟩ <;> rcases h2 with h2 | ⟨h2e, h2s⟩
  · exact Or.inl (by omega)
  · exact Or.inl (by omega)
  · exact Or.inl (by omega)
  · exact Or.inr ⟨by omega, strLE_trans _ _ _ h1s h2s⟩

lemma idLE_antisymm (a b : IssueID) (h1 : idLE a b = true) (h2 : idLE b a = true) :
    a = b := by
  rw [idLE_iff] at h1 h2
  rcases h1 with h1 | ⟨h1e, h1s⟩ <;> rcases h2 with h2 | ⟨h2e, h2s⟩ <;>
    try omega
  have hn : a.num = b.num := h1e
  cases a; cases b
  simp only [IssueID.mk.injEq]
  exact ⟨strLE_antisymm _ _ h1s h2s, hn⟩

/-- Embeds encode_blocks inside Issue.save: each IssueID becomes a pair
of its num and user, and the list is sorted by num. -/
def encodeBlocks (s : Finset IssueID) : List (Nat × String) :=
  (finsetSortBy idLE idLE_total idLE_trans idLE_antisymm s).map
    (fun b => (b.num, b.user))

/-- Embeds the blocked_by decoding in Issue.load: the stored pairs are
turned back into a set of IssueIDs. -/
def decodeBlocks (l : List (Nat × String)) : Finset IssueID :=
  (l.map (fun p => IssueID.mk p.2 p.1)).toFinset

/-- Embeds Issue.load restricted to the issue document itself: every
current field is read from the record and the original_* snapshot fields
are set to the same values. -/
def Issue.load (r : IssueRec) : Issue :=
  { id := r.id
    created := r.created
    updated := r.updated
    description := r.description
    tags := r.tags.toFinset
    blockedBy := decodeBlocks r.blocked_by
    status := r.status
    log := r.log
    originalDescription := r.description
    originalTags := r.tags.toFinset
    originalBlockedBy := decodeBlocks r.blocked_by
    originalStatus := r.status }

/-- Embeds Issue.save from src/ishu/models.py: each of the four tracked
fields that differs from its load-time snapshot contributes its previous
value to a log diff; when the diff is nonempty a timestamp is added and
the entry is appended to the log; the record is then serialized with
updated set to the current time. -/
def Issue.save (i : Issue) (now : String) : IssueRec :=
  let dDesc : Option String :=
    if i.description ≠ i.originalDescription then some i.originalDescription else none
  let dTags : Option (List String) :=
    if i.tags ≠ i.originalTags then some (sortStrings i.originalTags) else none
  let dBlocked : Option (List (Nat × String)) :=
    if i.blockedBy ≠ i.originalBlockedBy then some (encodeBlocks i.originalBlockedBy) else none
  let dStatus : Option String :=
    if i.status ≠ i.originalStatus then some i.originalStatus.value else none
  let newLog : List LogEntry :=
    if dDesc.isSome || dTags.isSome || dBlocked.isSome || dStatus.isSome then
      i.log ++ [ { description := dDesc, tags := dTags, blocked_by := dBlocked,
                   status := dStatus, timestamp := now } ]
    else i.log
  { id := i.id
    created := i.created
    updated := now
    description := i.description
    tags := sortStrings i.tags
    blocked_by := encodeBlocks i.blockedBy
    status := i.status
    log := newLog }

/-- Sorting a tag set and collecting it back yields the same set. -/
lemma toFinset_sortStrings (s : Finset String) : (sortStrings s).toFinset = s :=
  finsetSortBy_toFinset _ _ _ _ s

/-- Decoding an encoded blocked_by list yields the original set: the
round trip used when a saved issue is loaded again. -/
lemma decodeBlocks_encodeBlocks (s : Finset IssueID) : decodeBlocks (encodeBlocks s) = s := by
  unfold decodeBlocks encodeBlocks
  rw [List.map_map]
  have h : ((fun p : Nat × String => IssueID.mk p.2 p.1) ∘
      (fun b : IssueID => (b.num, b.user))) = fun b => b := rfl
  rw [h, List.map_id']
  exact finsetSortBy_toFinset _ _ _ _ s

/-- C2: saving an issue with no field differing from its load-time
snapshot appends no log entry, and saving with exactly one changed field
appends exactly one entry holding only that field's previous value plus
the timestamp, with every other field key absent. -/
theorem issue_save_log_diff (i : Issue) (now : String) :
    (i.description = i.originalDescription ∧ i.tags = i.originalTags ∧
      i.blockedBy = i.originalBlockedBy ∧ i.status = i.originalStatus →
      (Issue.save i now).log = i.log) ∧
    (i.description ≠ i.originalDescription ∧ i.tags = i.originalTags ∧
      i.blockedBy = i.originalBlockedBy ∧ i.status = i.originalStatus →
      (Issue.save i now).log = i.log ++
        [ { description := some i.originalDescription, tags := none,
            blocked_by := none, status := none, timestamp := now } ]) ∧
    (i.description = i.originalDescription ∧ i.tags ≠ i.originalTags ∧
      i.blockedBy = i.originalBlockedBy ∧ i.status = i.originalStatus →
      (Issue.save i now).log = i.log ++
        [ { description := none, tags := some (sortStrings i.originalTags),
            blocked_by := none, status := none, timestamp := now } ]) ∧
    (i.description = i.originalDescription ∧ i.tags = i.originalTags ∧
      i.blockedBy ≠ i.originalBlockedBy ∧ i.status = i.originalStatus →
      (Issue.save i now).log = i.log ++
        [ { description := none, tags := none,
            blocked_by := some (encodeBlocks i.originalBlockedBy),
            status := none, timestamp := now } ]) ∧
    (i.description = i.originalDescription ∧ i.tags = i.originalTags ∧
      i.blockedBy = i.originalBlockedBy ∧ i.status ≠ i.originalStatus →
      (Issue.save i now).log = i.log ++
        [ { description := none, tags := none, blocked_by := none,
            status := some i.originalStatus.value, timestamp := now } ]) := by
  refine ⟨?_, ?_, ?_, ?_, ?_⟩ <;> rintro ⟨h1, h2, h3, h4⟩ <;>
    simp [Issue.save, h1, h2, h3, h4]

/-- Example issue with all snapshot fields equal to the current fields. -/
def demoIssue : Issue :=
  { id := ⟨"alice", 1⟩
    created := "2020-01-01T00:00:00Z"
    updated := "2020-01-01T00:00:00Z"
    description := "d"
    tags := { "bug" }
    blockedBy := ∅
    status := .OPEN
    log := []
    originalDescription := "d"
    originalTags := { "bug" }
    originalBlockedBy := ∅
    originalStatus := .OPEN }

/-- Witness for C2 at concrete issues: one unchanged save, then one save
per single changed field. -/
theorem issue_save_log_diff_witness :
    (Issue.save demoIssue ("t")).log = [] ∧
    (Issue.save { demoIssue with description := "e" } ("t")).log =
      [ { description := some ("d"), tags := none, blocked_by := none,
          status := none, timestamp := "t" } ] ∧
    (Issue.save { demoIssue with tags := ∅ } ("t")).log =
      [ { description := none, tags := some (sortStrings { "bug" }),
          blocked_by := none, status := none, timestamp := "t" } ] ∧
    (Issue.save { demoIssue with blockedBy := { ⟨"bob", 2⟩ } } ("t")).log =
      [ { description := none, tags := none, blocked_by := some [],
          status := none, timestamp := "t" } ] ∧
    (Issue.save { demoIssue with status := .FIXED } ("t")).log =
      [ { description := none, tags := none, blocked_by := none,
          status := some ("open"), timestamp := "t" } ] := by
  refine ⟨(issue_save_log_diff demoIssue ("t")).1 (by decide),
    (issue_save_log_diff { demoIssue with description := "e" } ("t")).2.1 (by decide),
    (issue_save_log_diff { demoIssue with tags := ∅ } ("t")).2.2.1 (by decide),
    ?_, (issue_save_log_diff { demoIssue with status := .FIXED } ("t")).2.2.2.2 (by decide)⟩
  have h := (issue_save_log_diff { demoIssue with blockedBy := { ⟨"bob", 2⟩ } }
    ("t")).2.2.2.1 (by decide)
  simpa [demoIssue, encodeBlocks] using h

/-- Models the on-disk store: the list of issue JSON documents under the
per-user directories. -/
abbrev Store := List IssueRec

/-- Models the existence lookup done through issue_path: the stored
record with the given id, if any. -/
def findIssue (st : Store) (id : IssueID) : Option IssueRec :=
  st.find? (fun r => r.id == id)

/-- Models a write of an issue file: replaces the record with the same id
or creates a new file when none exists. -/
def saveToStore (st : Store) (rec : IssueRec) : Store :=
  if st.any (fun r => r.id == rec.id) then
    st.map (fun r => if r.id == rec.id then rec else r)
  else st ++ [rec]

/-- Outcome of the blocked and unblock commands in src/ishu/ishu.py;
the err cases are the calls of error, which abort without writing. -/
inductive BlockOutcome where
  | ok
  | alreadyBlocked
  | notBlocked
  | errNotFound
  | errSelfBlock
  | errBlockingLoop
  deriving DecidableEq, Repr

/-- Embeds cmd_blocked_by from src/ishu/ishu.py after argument parsing:
both ids are resolved (the resolver checks existence), then a self-block
is rejected, then both issues are loaded; an existing edge is a no-op,
an existing reverse edge is rejected as a blocking loop, and otherwise
the blocking id is added to the blocked issue's set and the issue saved. -/
def cmdBlockedBy (st : Store) (blocked blocking : IssueID) (now : String) :
    BlockOutcome × Store :=
  match findIssue st blocked with
  | none => (.errNotFound, st)
  | some rb =>
    match findIssue st blocking with
    | none => (.errNotFound, st)
    | some rk =>
      if blocked = blocking then (.errSelfBlock, st)
      else if blocking ∈ (Issue.load rb).blockedBy then (.alreadyBlocked, st)
      else if blocked ∈ (Issue.load rk).blockedBy then (.errBlockingLoop, st)
      else (.ok, saveToStore st
        (Issue.save { Issue.load rb with
          blockedBy := insert blocking (Issue.load rb).blockedBy } now))

/-- Embeds cmd_unblock from src/ishu/ishu.py after argument parsing. -/
def cmdUnblock (st : Store) (blocked blocking : IssueID) (now : String) :
    BlockOutcome × Store :=
  match findIssue st blocked with
  | none => (.errNotFound, st)
  | some rb =>
    match findIssue st blocking with
    | none => (.errNotFound, st)
    | some _ =>
      if blocked = blocking then (.errSelfBlock, st)
      else if blocking ∉ (Issue.load rb).blockedBy then (.notBlocked, st)
      else (.ok, saveToStore st
        (Issue.save { Issue.load rb with
          blockedBy := (Issue.load rb).blockedBy.erase blocking } now))

/-- Mapping a function that preserves the predicate commutes with find?. -/
lemma find?_map_eq {α : Type} (l : List α) (f : α → α) (p : α → Bool)
    (h : ∀ x, p (f x) = p x) : (l.map f).find? p = (l.find? p).map f := by
  induction l with
  | nil => rfl
  | cons a t ih =>
    by_cases hpa : p a = true
    · rw [List.map_cons, List.find?_cons_of_pos _ ((h a).trans hpa),
        List.find?_cons_of_pos _ hpa, Option.map_some']
    · have hpa' : ¬ p a = true := hpa
      rw [List.map_cons, List.find?_cons_of_neg _ (by rw [h a]; exact hpa'),
        List.find?_cons_of_neg _ hpa', ih]

/-- C8: marking an issue as blocked by itself always fails with the
self-block error, for every store state, and the store is unchanged. -/
theorem blocked_by_self_rejected (st : Store) (a : IssueID) (now : String)
    (h : (findIssue st a).isSome) :
    cmdBlockedBy st a a now = (.errSelfBlock, st) := by
  cases hfind : findIssue st a with
  | none => rw [hfind] at h; simp at h
  | some r => simp [cmdBlockedBy, hfind]

/-- Example on-disk record of an open issue with no blockers. -/
def demoRecA : IssueRec :=
  { id := ⟨"alice", 1⟩, created := "c", updated := "c", description := "a"
    tags := [], blocked_by := [], status := .OPEN, log := [] }

/-- Second example record, same user, next number. -/
def demoRecB : IssueRec :=
  { id := ⟨"alice", 2⟩, created := "c", updated := "c", description := "b"
    tags := [], blocked_by := [], status := .OPEN, log := [] }

/-- Witness for C8 on a concrete one-issue store. -/
theorem blocked_by_self_rejected_witness :
    (findIssue [demoRecA] ⟨"alice", 1⟩).isSome = true ∧
    cmdBlockedBy [demoRecA] ⟨"alice", 1⟩ ⟨"alice", 1⟩ ("t") =
      (.errSelfBlock, [demoRecA]) :=
  ⟨by decide, blocked_by_self_rejected [demoRecA] ⟨"alice", 1⟩ ("t") (by decide)⟩

/-- Some record of the store already carries the id being written. -/
lemma any_id_eq_true {st : Store} {rec r : IssueRec} (hr : r ∈ st)
    (hid : r.id = rec.id) : st.any (fun x => x.id == rec.id) = true :=
  List.any_eq_true.mpr ⟨r, hr, by rw [hid, beq_self_eq_true]⟩

/-- Writing a record makes it the one found under its id, provided a
record with that id already existed. -/
lemma findIssue_saveToStore_self (st : Store) (rec r0 : IssueRec)
    (h : findIssue st rec.id = some r0) :
    findIssue (saveToStore st rec) rec.id = some rec := by
  unfold findIssue at h
  have hr0 : r0 ∈ st := List.mem_of_find?_eq_some h
  have hp := List.find?_some h
  have hid : r0.id = rec.id := by simpa using hp
  unfold saveToStore
  rw [if_pos (any_id_eq_true hr0 hid)]
  unfold findIssue
  rw [find?_map_eq _ _ _ ?hcomm]
  case hcomm =>
    intro x
    by_cases hx : x.id = rec.id
    · simp [hx]
    · simp [hx]
  rw [h, Option.map_some', if_pos (by rw [hid, beq_self_eq_true])]

/-- Writing a record does not disturb the lookup of a different id,
provided a record with the written id already existed. -/
lemma findIssue_saveToStore_ne (st : Store) (rec : IssueRec) (i : IssueID)
    (hne : rec.id ≠ i) (r : IssueRec) (hr : r ∈ st) (hid : r.id = rec.id) :
    findIssue (saveToStore st rec) i = findIssue st i := by
  unfold saveToStore
  rw [if_pos (any_id_eq_true hr hid)]
  unfold findIssue
  rw [find?_map_eq _ _ _ ?hcomm]
  case hcomm =>
    intro x
    by_cases hx : x.id = rec.id
    · simp [hx, hne]
    · simp [hx]
  cases hf : st.find? (fun r => r.id == i) with
  | none => rfl
  | some r1 =>
    have hp1 := List.find?_some hf
    have hid1 : r1.id = i := by simpa using hp1
    have hr1 : r1.id ≠ rec.id := by
      intro hcontra
      exact hne (by rw [← hcontra]; exact hid1)
    simp [Option.map_some', hr1]

/-- C3: for two distinct issues with empty blocked_by sets, adding the
edge A blocked-by B succeeds, and then adding B blocked-by A fails with
the blocking-loop error, leaves the store exactly as after the first
call, and B's record still has its empty blocked_by list. -/
theorem blocked_by_two_cycle_rejected (st : Store) (ra rb : IssueRec)
    (now1 now2 : String) (hab : ra.id ≠ rb.id)
    (ha : findIssue st ra.id = some ra) (hb : findIssue st rb.id = some rb)
    (hae : ra.blocked_by = []) (hbe : rb.blocked_by = []) :
    (cmdBlockedBy st ra.id rb.id now1).1 = .ok ∧
    (cmdBlockedBy (cmdBlockedBy st ra.id rb.id now1).2 rb.id ra.id now2).1 =
      .errBlockingLoop ∧
    (cmdBlockedBy (cmdBlockedBy st ra.id rb.id now1).2 rb.id ra.id now2).2 =
      (cmdBlockedBy st ra.id rb.id now1).2 ∧
    findIssue (cmdBlockedBy (cmdBlockedBy st ra.id rb.id now1).2 rb.id ra.id now2).2
      rb.id = some rb := by
  have hmemA : ra ∈ st := List.mem_of_find?_eq_some ha
  have h1 : rb.id ∉ (Issue.load ra).blockedBy := by
    simp [Issue.load, hae, decodeBlocks]
  have h2 : ra.id ∉ (Issue.load rb).blockedBy := by
    simp [Issue.load, hbe, decodeBlocks]
  set NR := Issue.save
    { Issue.load ra with blockedBy := insert rb.id (Issue.load ra).blockedBy } now1
    with hNR
  have e1 : cmdBlockedBy st ra.id rb.id now1 = (.ok, saveToStore st NR) := by
    simp [cmdBlockedBy, ha, hb, hab, h1, h2, hNR]
  have hfb1 : findIssue (saveToStore st NR) rb.id = some rb := by
    rw [findIssue_saveToStore_ne st NR rb.id hab ra hmemA rfl]
    exact hb
  have hfa1 : findIssue (saveToStore st NR) ra.id = some NR :=
    findIssue_saveToStore_self st NR ra ha
  have htrue : rb.id ∈ (Issue.load NR).blockedBy := by
    rw [hNR]
    show rb.id ∈ decodeBlocks (encodeBlocks _)
    rw [decodeBlocks_encodeBlocks]
    exact Finset.mem_insert_self _ _
  have hba : rb.id ≠ ra.id := fun h => hab h.symm
  have e2 : cmdBlockedBy (saveToStore st NR) rb.id ra.id now2 =
      (.errBlockingLoop, saveToStore st NR) := by
    simp [cmdBlockedBy, hfb1, hfa1, hba, h2, htrue]
  refine ⟨?_, ?_, ?_, ?_⟩ <;> simp [e1, e2, hfb1]

/-- Witness for C3 on a concrete two-issue store. -/
theorem blocked_by_two_cycle_rejected_witness :
    (cmdBlockedBy [demoRecA, demoRecB] demoRecA.id demoRecB.id ("t1")).1 = .ok ∧
    (cmdBlockedBy
      (cmdBlockedBy [demoRecA, demoRecB] demoRecA.id demoRecB.id ("t1")).2
      demoRecB.id demoRecA.id ("t2")).1 = .errBlockingLoop ∧
    (cmdBlockedBy
      (cmdBlockedBy [demoRecA, demoRecB] demoRecA.id demoRecB.id ("t1")).2
      demoRecB.id demoRecA.id ("t2")).2 =
      (cmdBlockedBy [demoRecA, demoRecB] demoRecA.id demoRecB.id ("t1")).2 ∧
    findIssue (cmdBlockedBy
      (cmdBlockedBy [demoRecA, demoRecB] demoRecA.id demoRecB.id ("t1")).2
      demoRecB.id demoRecA.id ("t2")).2 demoRecB.id = some demoRecB :=
  blocked_by_two_cycle_rejected [demoRecA, demoRecB] demoRecA demoRecB
    ("t1") ("t2") (by decide) (by decide) (by decide) (by decide) (by decide)

/-- Embeds cmd_open from src/ishu/ishu.py: the next unused number for the
acting user is one more than the largest existing one (0 when none), and
the new issue starts OPEN with an empty log and snapshot fields equal to
the current fields. -/
def cmdOpen (st : Store) (user description : String) (tags : Finset String)
    (blockedBy : Finset IssueID) (now : String) : Store :=
  let newNum := ((st.filter (fun r => r.id.user == user)).map
    (fun r => r.id.num)).foldr max 0 + 1
  let issue : Issue :=
    { id := ⟨user, newNum⟩, created := now, updated := now
      description := description, tags := tags, blockedBy := blockedBy
      status := .OPEN, log := []
      originalDescription := description, originalTags := tags
      originalBlockedBy := blockedBy, originalStatus := .OPEN }
  saveToStore st (Issue.save issue now)

/-- Embeds _change_status from src/ishu/ishu.py, used by the reopen,
fixed and wontfix commands: a no-op when the status already matches,
otherwise the issue is saved with the target status.  The optional
comment written by fixed and wontfix lives in a separate comment file,
not in the issue document. -/
def cmdChangeStatus (st : Store) (id : IssueID) (target : IssueStatus)
    (now : String) : Store :=
  match findIssue st id with
  | none => st
  | some r =>
    if (Issue.load r).status = target then st
    else saveToStore st (Issue.save { Issue.load r with status := target } now)

/-- Description branch of cmd_edit: a truthy, different description
replaces the old one and marks the issue changed. -/
def editDescStep (p : Issue × Bool) (desc : Option String) : Issue × Bool :=
  match desc with
  | some d =>
    if d ≠ "" ∧ d ≠ p.1.description then ({ p.1 with description := d }, true)
    else p
  | none => p

/-- Tag-adding branch of cmd_edit: a truthy tag set that is not already a
subset is unioned in and marks the issue changed. -/
def editAddStep (p : Issue × Bool) (addTags : Option (Finset String)) : Issue × Bool :=
  match addTags with
  | some ts =>
    if ts ≠ ∅ ∧ ¬ ts ⊆ p.1.tags then ({ p.1 with tags := p.1.tags ∪ ts }, true)
    else p
  | none => p

/-- Tag-removing branch of cmd_edit: a truthy tag set that intersects the
current tags is subtracted and marks the issue changed. -/
def editRemoveStep (p : Issue × Bool) (removeTags : Option (Finset String)) :
    Issue × Bool :=
  match removeTags with
  | some ts =>
    if ts ≠ ∅ ∧ (ts ∩ p.1.tags) ≠ ∅ then ({ p.1 with tags := p.1.tags \ ts }, true)
    else p
  | none => p

/-- Embeds the mutation part of cmd_edit from src/ishu/ishu.py on the
loaded issue; the boolean records whether anything changed (only then is
the issue saved). -/
def editIssue (i0 : Issue) (desc : Option String)
    (addTags removeTags : Option (Finset String)) : Issue × Bool :=
  editRemoveStep (editAddStep (editDescStep (i0, false) desc) addTags) removeTags

/-- Embeds cmd_edit from src/ishu/ishu.py after argument parsing. -/
def cmdEdit (st : Store) (id : IssueID) (desc : Option String)
    (addTags removeTags : Option (Finset String)) (now : String) : Store :=
  match findIssue st id with
  | none => st
  | some r =>
    if (editIssue (Issue.load r) desc addTags removeTags).2 then
      saveToStore st (Issue.save (editIssue (Issue.load r) desc addTags removeTags).1 now)
    else st

/-- One invocation of a mutating core command, paired with the wall-clock
timestamp the run would observe. -/
inductive Op where
  | openIssue (user description : String) (tags : Finset String)
      (blockedBy : Finset IssueID)
  | reopen (id : IssueID)
  | markFixed (id : IssueID)
  | markWontfix (id : IssueID)
  | edit (id : IssueID) (desc : Option String)
      (addTags removeTags : Option (Finset String))
  | blocked (a b : IssueID)
  | unblock (a b : IssueID)

/-- Runs one command against the store. -/
def applyOp (st : Store) (op : Op) (now : String) : Store :=
  match op with
  | .openIssue u d t b => cmdOpen st u d t b now
  | .reopen id => cmdChangeStatus st id .OPEN now
  | .markFixed id => cmdChangeStatus st id .FIXED now
  | .markWontfix id => cmdChangeStatus st id .WONTFIX now
  | .edit id d a r => cmdEdit st id d a r now
  | .blocked a b => (cmdBlockedBy st a b now).2
  | .unblock a b => (cmdUnblock st a b now).2

/-- Runs a whole command history from a starting store. -/
def applyOps (st : Store) (ops : List (Op × String)) : Store :=
  ops.foldl (fun s p => applyOp s p.1 p.2) st

/-- Statuses that the core actually stores. -/
def statusOK (s : IssueStatus) : Prop :=
  s = .OPEN ∨ s = .FIXED ∨ s = .WONTFIX

/-- A record in a store after a write is an old record or the new one. -/
lemma mem_saveToStore {st : Store} {rec r : IssueRec}
    (h : r ∈ saveToStore st rec) : r ∈ st ∨ r = rec := by
  unfold saveToStore at h
  split at h
  · obtain ⟨x, hx, hfx⟩ := List.mem_map.mp h
    by_cases hxid : (x.id == rec.id) = true
    · rw [if_pos hxid] at hfx
      exact Or.inr hfx.symm
    · rw [if_neg hxid] at hfx
      exact Or.inl (hfx ▸ hx)
  · rcases List.mem_append.mp h with hin | hone
    · exact Or.inl hin
    · exact Or.inr (List.mem_singleton.mp hone)

lemma editDescStep_status (p : Issue × Bool) (desc : Option String) :
    (editDescStep p desc).1.status = p.1.status := by
  cases desc with
  | none => rfl
  | some d =>
    rw [editDescStep]
    split_ifs <;> rfl

lemma editAddStep_status (p : Issue × Bool) (addTags : Option (Finset String)) :
    (editAddStep p addTags).1.status = p.1.status := by
  cases addTags with
  | none => rfl
  | some ts =>
    rw [editAddStep]
    split_ifs <;> rfl

lemma editRemoveStep_status (p : Issue × Bool) (removeTags : Option (Finset String)) :
    (editRemoveStep p removeTags).1.status = p.1.status := by
  cases removeTags with
  | none => rfl
  | some ts =>
    rw [editRemoveStep]
    split_ifs <;> rfl

/-- Editing never touches the status field. -/
lemma editIssue_status (i0 : Issue) (desc : Option String)
    (addTags removeTags : Option (Finset String)) :
    (editIssue i0 desc addTags removeTags).1.status = i0.status := by
  unfold editIssue
  rw [editRemoveStep_status, editAddStep_status, editDescStep_status]

/-- The status-changing command only ever stores its target status or
leaves old records in place. -/
lemma cmdChangeStatus_statusOK {st : Store} (id : IssueID)
    (target : IssueStatus) (now : String)
    (h : ∀ r ∈ st, statusOK r.status) (ht : statusOK target) :
    ∀ r ∈ cmdChangeStatus st id target now, statusOK r.status := by
  intro r hr
  unfold cmdChangeStatus at hr
  split at hr
  · exact h r hr
  · split at hr
    · exact h r hr
    · rcases mem_saveToStore hr with hin | rfl
      · exact h r hin
      · exact ht

/-- The blocked command only ever re-stores an already-present status. -/
lemma cmdBlockedBy_statusOK {st : Store} (a b : IssueID) (now : String)
    (h : ∀ r ∈ st, statusOK r.status) :
    ∀ r ∈ (cmdBlockedBy st a b now).2, statusOK r.status := by
  intro r hr
  unfold cmdBlockedBy at hr
  split at hr
  · exact h r hr
  · rename_i rb hfb
    split at hr
    · exact h r hr
    · rename_i rk hfk
      split at hr
      · exact h r hr
      · split at hr
        · exact h r hr
        · split at hr
          · exact h r hr
          · rcases mem_saveToStore hr with hin | rfl
            · exact h r hin
            · exact h rb (List.mem_of_find?_eq_some hfb)

/-- The unblock command only ever re-stores an already-present status. -/
lemma cmdUnblock_statusOK {st : Store} (a b : IssueID) (now : String)
    (h : ∀ r ∈ st, statusOK r.status) :
    ∀ r ∈ (cmdUnblock st a b now).2, statusOK r.status := by
  intro r hr
  unfold cmdUnblock at hr
  split at hr
  · exact h r hr
  · rename_i rb hfb
    split at hr
    · exact h r hr
    · rename_i rk hfk
      split at hr
      · exact h r hr
      · split at hr
        · exact h r hr
        · rcases mem_saveToStore hr with hin | rfl
          · exact h r hin
          · exact h rb (List.mem_of_find?_eq_some hfb)

/-- One command application preserves the stored-status invariant. -/
lemma applyOp_statusOK {st : Store} (h : ∀ r ∈ st, statusOK r.status)
    (op : Op) (now : String) :
    ∀ r ∈ applyOp st op now, statusOK r.status := by
  cases op with
  | openIssue u d t b =>
    intro r hr
    simp only [applyOp, cmdOpen] at hr
    rcases mem_saveToStore hr with hin | rfl
    · exact h r hin
    · exact Or.inl rfl
  | reopen id => exact cmdChangeStatus_statusOK id .OPEN now h (Or.inl rfl)
  | markFixed id => exact cmdChangeStatus_statusOK id .FIXED now h (Or.inr (Or.inl rfl))
  | markWontfix id =>
    exact cmdChangeStatus_statusOK id .WONTFIX now h (Or.inr (Or.inr rfl))
  | edit id d a rt =>
    intro r hr
    simp only [applyOp] at hr
    unfold cmdEdit at hr
    split at hr
    · exact h r hr
    · rename_i r0 hf0
      split at hr
      · rcases mem_saveToStore hr with hin | rfl
        · exact h r hin
        · have hs : (Issue.save (editIssue (Issue.load r0) d a rt).1 now).status
              = r0.status := editIssue_status (Issue.load r0) d a rt
          rw [statusOK, hs]
          exact h r0 (List.mem_of_find?_eq_some hf0)
      · exact h r hr
  | blocked a b => exact cmdBlockedBy_statusOK a b now h
  | unblock a b => exact cmdUnblock_statusOK a b now h

/-- C9: starting from an empty store, no sequence of core commands ever
persists the closed status: every record in the resulting store has
status open, fixed or wontfix. -/
theorem no_closed_status_persisted (ops : List (Op × String)) :
    ∀ r ∈ applyOps [] ops,
      r.status = .OPEN ∨ r.status = .FIXED ∨ r.status = .WONTFIX := by
  suffices hgen : ∀ (st : Store), (∀ r ∈ st, statusOK r.status) →
      ∀ r ∈ applyOps st ops, statusOK r.status by
    intro r hr
    exact hgen [] (by simp) r hr
  induction ops with
  | nil =>
    intro st hst
    simpa [applyOps] using hst
  | cons p t ih =>
    intro st hst r hr
    exact ih (applyOp st p.1 p.2) (applyOp_statusOK hst p.1 p.2) r
      (by simpa [applyOps] using hr)

/-- Two-command history: open an issue, then mark it fixed. -/
def demoOps : List (Op × String) :=
  [ (Op.openIssue ("alice") ("d") ∅ ∅, "t1"),
    (Op.markFixed ⟨"alice", 1⟩, "t2") ]

/-- The record the demo history leaves on disk. -/
def demoFixedRec : IssueRec :=
  { id := ⟨"alice", 1⟩, created := "t1", updated := "t2", description := "d"
    tags := [], blocked_by := [], status := .FIXED
    log := [ { description := none, tags := none, blocked_by := none,
               status := some ("open"), timestamp := "t2" } ] }

/-- Witness for C9 on the concrete demo history. -/
theorem no_closed_status_persisted_witness :
    demoFixedRec ∈ applyOps [] demoOps ∧
    (demoFixedRec.status = .OPEN ∨ demoFixedRec.status = .FIXED ∨
      demoFixedRec.status = .WONTFIX) :=
  ⟨by decide, no_closed_status_persisted demoOps demoFixedRec (by decide)⟩

/-!
Comments (src/ishu/models.py, Comment).  Comment files hold a small JSON
document; the embedding keeps the JSON values the Python code reads and
writes, since Python is dynamically typed and the loaded fields keep
whatever type the file held.
-/

/-- JSON values as used by the comment documents. -/
inductive Json where
  | str (s : String)
  | num (n : Nat)
  | obj (fields : List (String × Json))

/-- Dictionary access on a JSON object (KeyError becomes none). -/
def Json.getField : Json → String → Option Json
  | .obj fs, k => (fs.find? (fun p => p.1 == k)).map (fun p => p.2)
  | _, _ => none

/-- Embeds the in-memory Comment NamedTuple; created is the timestamp
rendered at the second precision of TIMESTAMP_FMT, modeled as the
formatted string since strftime and strptime are mutually inverse at that
precision. -/
structure Comment where
  issue_id : IssueID
  user : String
  created : String
  message : String
  deriving DecidableEq, Repr

/-- Embeds the JSON document written by Comment.save: note that the num
of the issue id is serialized through str(), producing a JSON string. -/
def Comment.save (c : Comment) : Json :=
  .obj [ ("issue_id", .obj [ ("user", .str c.issue_id.user),
                             ("num", .str (toString c.issue_id.num)) ]),
         ("user", .str c.user),
         ("created", .str c.created),
         ("message", .str c.message) ]

/-- What Comment.load actually produces: every field keeps the JSON value
found in the file (no conversion), except created which strptime requires
to be a string in the timestamp format. -/
structure LoadedComment where
  issue_user : Json
  issue_num : Json
  user : Json
  created : String
  message : Json

/-- Embeds Comment.load from src/ishu/models.py. -/
def Comment.load (j : Json) : Option LoadedComment :=
  match j.getField ("issue_id") with
  | none => none
  | some iid =>
    match iid.getField ("user"), iid.getField ("num"), j.getField ("user"),
        j.getField ("created"), j.getField ("message") with
    | some u, some n, some usr, some (.str cr), some msg =>
      some { issue_user := u, issue_num := n, user := usr,
             created := cr, message := msg }
    | _, _, _, _, _ => none

/-- C10 (code bug): loading the document Comment.save wrote returns the
issue-id num as the JSON string produced by str(), never as the integer
it came from, so the loaded comment is not equal to the saved one. -/
theorem comment_save_load_num_is_string (c : Comment) :
    Comment.load (Comment.save c) = some
      { issue_user := .str c.issue_id.user,
        issue_num := .str (toString c.issue_id.num),
        user := .str c.user, created := c.created, message := .str c.message } ∧
    Json.str (toString c.issue_id.num) ≠ Json.num c.issue_id.num :=
  ⟨rfl, fun h => Json.noConfusion h⟩

/-!
The derived blocking view of cmd_list (src/ishu/ishu.py).
-/

/-- Embeds the blocking_issues list computed per issue inside cmd_list:
other issues whose blocked_by holds this issue's id, computed only when
this issue itself is OPEN (the status gate in the code sits on the issue
being classified, not on the issues that reference it). -/
def blockingIssues (all : List IssueRec) (x : IssueRec) : List IssueRec :=
  if x.status = .OPEN then
    all.filter (fun i => decide (i.id ≠ x.id ∧ x.id ∈ (Issue.load i).blockedBy))
  else []

/-- Embeds the is_blocking classification of cmd_list: the issue id is
added to the set exactly when its blocking_issues list is nonempty. -/
def isBlocking (all : List IssueRec) (x : IssueRec) : Bool :=
  !(blockingIssues all x).isEmpty

/-- Stated from the claim wording, for comparison with the code: some
other OPEN issue's blocked_by contains the id of x. -/
def specBlocking (all : List IssueRec) (x : IssueRec) : Prop :=
  ∃ i ∈ all, i.id ≠ x.id ∧ i.status = .OPEN ∧ x.id ∈ (Issue.load i).blockedBy

/-- Closed, fixed issue whose blocked_by holds alice-1. -/
def demoRecFixedBlocked : IssueRec :=
  { id := ⟨"alice", 3⟩, created := "c", updated := "c", description := "y"
    tags := [], blocked_by := [(1, "alice")], status := .FIXED, log := [] }

/-- C6 counterexample: an OPEN issue referenced only from a FIXED issue
is classified as blocking by the code, while the claim's predicate (the
referencing issue must be OPEN) does not hold. -/
theorem list_blocking_gate_counterexample :
    isBlocking [demoRecA, demoRecFixedBlocked] demoRecA = true ∧
    ¬ specBlocking [demoRecA, demoRecFixedBlocked] demoRecA := by
  constructor
  · decide
  · unfold specBlocking
    decide

/-- C6 amended: an issue is classified as blocking exactly when it is
itself OPEN and some other issue, of any status, lists it in blocked_by;
in particular a non-OPEN issue is never classified as blocking. -/
theorem list_blocking_gate (all : List IssueRec) (x : IssueRec) :
    isBlocking all x = true ↔
      (x.status = .OPEN ∧ ∃ i ∈ all, i.id ≠ x.id ∧ x.id ∈ (Issue.load i).blockedBy) := by
  unfold isBlocking blockingIssues
  split_ifs with hs
  · simp [hs, List.isEmpty_iff, List.eq_nil_iff_forall_not_mem, List.mem_filter]
  · simp [hs]

/-!
The tag listing of cmd_tag (src/ishu/ishu.py).
-/

/-- Embeds the per-tag value of the issue_tags Counter: the number of
issues whose tag set holds the tag (each issue's tags form a set, so an
issue contributes at most once). -/
def usageCount (st : List IssueRec) (t : String) : Nat :=
  (st.filter (fun r => decide (t ∈ (Issue.load r).tags))).length

/-- All tags carried by at least one issue. -/
def usedTags (st : List IssueRec) : Finset String :=
  st.foldr (fun r acc => (Issue.load r).tags ∪ acc) ∅

/-- The keys of the issue_tags Counter after registered-but-unused tags
are added with count zero: used tags plus the registry. -/
def tagKeys (st : List IssueRec) (registry : Finset String) : Finset String :=
  usedTags st ∪ registry

/-- Comparison used by the sorted call with key count and reverse=True:
descending count (ties are resolved by the stable sort). -/
def pairCountGE (a b : String × Nat) : Bool := decide (b.2 ≤ a.2)

/-- Comparison used by tag_list.sort(): Python compares the tuples
(name, str(count)) but every name occurs once, so the name decides. -/
def pairNameLE (a b : String × Nat) : Bool := strLE a.1 b.1

/-- Embeds the tag_list construction of cmd_tag's list branch: the dict
pairs are first fully sorted (equivalently: the distinct keys by name),
then stably re-sorted by descending count; without the usage flag the
resulting list is sorted again by name. -/
def listTags (st : List IssueRec) (registry : Finset String)
    (sortByUsage : Bool) : List (String × Nat) :=
  if sortByUsage then
    isort pairCountGE
      ((sortStrings (tagKeys st registry)).map (fun t => (t, usageCount st t)))
  else
    isort pairNameLE (isort pairCountGE
      ((sortStrings (tagKeys st registry)).map (fun t => (t, usageCount st t))))

lemma pairCountGE_total (a b : String × Nat) :
    pairCountGE a b = true ∨ pairCountGE b a = true := by
  unfold pairCountGE
  rcases Nat.le_total a.2 b.2 with h | h
  · exact Or.inr (decide_eq_true h)
  · exact Or.inl (decide_eq_true h)

lemma pairCountGE_trans (a b c : String × Nat) (h1 : pairCountGE a b = true)
    (h2 : pairCountGE b c = true) : pairCountGE a c = true := by
  unfold pairCountGE at h1 h2 ⊢
  simp only [decide_eq_true_eq] at h1 h2 ⊢
  omega

lemma pairNameLE_total (a b : String × Nat) :
    pairNameLE a b = true ∨ pairNameLE b a = true :=
  strLE_total a.1 b.1

lemma pairNameLE_trans (a b c : String × Nat) (h1 : pairNameLE a b = true)
    (h2 : pairNameLE b c = true) : pairNameLE a c = true :=
  strLE_trans a.1 b.1 c.1 h1 h2

/-- C7: with the usage flag the tag list is ordered by strictly
descending count with ties broken alphabetically; without it the list is
ordered purely alphabetically; and in both cases the entries are exactly
one (tag, usageCount) pair per used-or-registered tag. -/
theorem listTags_orders (st : List IssueRec) (registry : Finset String) :
    List.Perm (listTags st registry true)
      ((sortStrings (tagKeys st registry)).map (fun t => (t, usageCount st t))) ∧
    List.Perm (listTags st registry false)
      ((sortStrings (tagKeys st registry)).map (fun t => (t, usageCount st t))) ∧
    (listTags st registry true).Pairwise
      (fun a b => b.2 < a.2 ∨ (a.2 = b.2 ∧ strLE a.1 b.1 = true ∧ a.1 ≠ b.1)) ∧
    (listTags st registry false).Pairwise
      (fun a b => strLE a.1 b.1 = true ∧ a.1 ≠ b.1) := by
  have hkeysNodup : (sortStrings (tagKeys st registry)).Nodup :=
    finsetSortBy_nodup _ _ _ _ _
  have hkeysSorted : (sortStrings (tagKeys st registry)).Pairwise
      (fun a b => strLE a b = true) := finsetSortBy_pairwise _ _ _ _ _
  have hbaseName : ((sortStrings (tagKeys st registry)).map
      (fun t => (t, usageCount st t))).Pairwise
      (fun a b => strLE a.1 b.1 = true ∧ a.1 ≠ b.1) := by
    rw [List.pairwise_map]
    exact hkeysSorted.and hkeysNodup
  have hperm1 : List.Perm (isort pairCountGE ((sortStrings (tagKeys st registry)).map
      (fun t => (t, usageCount st t))))
      ((sortStrings (tagKeys st registry)).map (fun t => (t, usageCount st t))) :=
    isort_perm _ _
  have husage : (isort pairCountGE ((sortStrings (tagKeys st registry)).map
      (fun t => (t, usageCount st t)))).Pairwise
      (fun a b => b.2 < a.2 ∨ (a.2 = b.2 ∧ strLE a.1 b.1 = true ∧ a.1 ≠ b.1)) := by
    refine (pairwise_isort pairCountGE _ pairCountGE_total pairCountGE_trans _
      hbaseName).imp ?_
    intro a b hab
    have h1 : b.2 ≤ a.2 := of_decide_eq_true hab.1
    by_cases he : a.2 = b.2
    · exact Or.inr ⟨he, hab.2 (decide_eq_true (Nat.le_of_eq he))⟩
    · exact Or.inl (by omega)
  have hperm2 : List.Perm (isort pairNameLE (isort pairCountGE
      ((sortStrings (tagKeys st registry)).map (fun t => (t, usageCount st t)))))
      ((sortStrings (tagKeys st registry)).map (fun t => (t, usageCount st t))) :=
    (isort_perm _ _).trans hperm1
  have hname2 : (isort pairNameLE (isort pairCountGE
      ((sortStrings (tagKeys st registry)).map (fun t => (t, usageCount st t))))).Pairwise
      (fun a b => strLE a.1 b.1 = true ∧ a.1 ≠ b.1) := by
    have hle := pairwise_isort_le pairNameLE pairNameLE_total pairNameLE_trans
      (isort pairCountGE ((sortStrings (tagKeys st registry)).map
        (fun t => (t, usageCount st t))))
    have hne := (hperm2.pairwise_iff (fun h hba => h hba.symm)).mpr
      (hbaseName.imp (fun h => h.2))
    exact (hle.and hne).imp (fun h => h)
  exact ⟨by simpa [listTags] using hperm1, by simpa [listTags] using hperm2,
    by simpa [listTags] using husage, by simpa [listTags] using hname2⟩

/-!
The destructive tag operations of cmd_tag (src/ishu/ishu.py): remove and
edit.  The interactive confirmation prompt is modeled as an oracle.
-/

/-- Whether at least one issue currently carries the tag (the
matched_issues check before each prompt). -/
def usedByIssues (st : List IssueRec) (t : String) : Bool :=
  st.any (fun r => decide (t ∈ (Issue.load r).tags))

/-- Result of a tag remove or edit run: the final registry, the store,
how many issues were saved, and whether the registry file is rewritten
(cmd_tag writes it only when the set changed). -/
structure TagOpResult where
  registry : Finset String
  store : List IssueRec
  savedCount : Nat
  wroteRegistryFile : Bool
  deriving DecidableEq

/-- Embeds the remove branch of cmd_tag: tags outside the registry are
only reported; for each matched tag used by at least one issue the user
is prompted, and any decline breaks out before anything is modified
(the registry update and the issue saves all sit after the prompt loop);
otherwise the matched tags leave the registry and every issue whose tag
set meets them is rewritten without those tags. -/
def cmdTagRemove (st : List IssueRec) (registry : Finset String)
    (removeTags : Finset String) (confirm : String → Bool) (now : String) :
    TagOpResult :=
  if ∃ t ∈ removeTags ∩ registry, usedByIssues st t = true ∧ confirm t = false then
    { registry := registry, store := st, savedCount := 0, wroteRegistryFile := false }
  else
    { registry := registry \ (removeTags ∩ registry)
      store := st.map (fun r =>
        if ((removeTags ∩ registry) ∩ (Issue.load r).tags) ≠ ∅ then
          Issue.save { Issue.load r with
            tags := (Issue.load r).tags \ (removeTags ∩ registry) } now
        else r)
      savedCount := (st.filter (fun r =>
        decide (((removeTags ∩ registry) ∩ (Issue.load r).tags) ≠ ∅))).length
      wroteRegistryFile :=
        decide (registry \ (removeTags ∩ registry) ≠ registry) }

/-- Outcome of the edit branch of cmd_tag. -/
inductive TagEditOutcome where
  | ok
  | errSameName
  | errUnknownOld
  | errNewExists
  | aborted
  deriving DecidableEq, Repr

/-- Embeds the edit branch of cmd_tag: identical names, an unknown old
name or an existing new name abort with an error; when issues use the
old tag a single prompt is shown and declining returns before anything
is modified; otherwise every using issue is rewritten with the tag
renamed and the registry swaps the names. -/
def cmdTagEdit (st : List IssueRec) (registry : Finset String)
    (oldName newName : String) (confirm : Bool) (now : String) :
    TagEditOutcome × TagOpResult :=
  if oldName = newName then
    (.errSameName, ⟨registry, st, 0, false⟩)
  else if oldName ∉ registry then
    (.errUnknownOld, ⟨registry, st, 0, false⟩)
  else if newName ∈ registry then
    (.errNewExists, ⟨registry, st, 0, false⟩)
  else if usedByIssues st oldName = true ∧ confirm = false then
    (.aborted, ⟨registry, st, 0, false⟩)
  else
    (.ok,
      { registry := insert newName (registry.erase oldName)
        store := st.map (fun r =>
          if oldName ∈ (Issue.load r).tags then
            Issue.save { Issue.load r with
              tags := insert newName ((Issue.load r).tags.erase oldName) } now
          else r)
        savedCount := (st.filter (fun r =>
          decide (oldName ∈ (Issue.load r).tags))).length
        wroteRegistryFile :=
          decide (insert newName (registry.erase oldName) ≠ registry) })

/-- C4: a declined confirmation during tag removal or tag rename changes
nothing at all: the registry keeps its loaded value (so its file is not
rewritten) and no issue is saved. -/
theorem tag_decline_changes_nothing (st : List IssueRec)
    (registry removeTags : Finset String) (confirm : String → Bool)
    (oldName newName : String) (confirmEdit : Bool) (now : String) :
    ((∃ t ∈ removeTags ∩ registry, usedByIssues st t = true ∧ confirm t = false) →
      cmdTagRemove st registry removeTags confirm now =
        ⟨registry, st, 0, false⟩) ∧
    (oldName ≠ newName → oldName ∈ registry → newName ∉ registry →
      usedByIssues st oldName = true → confirmEdit = false →
      cmdTagEdit st registry oldName newName confirmEdit now =
        (.aborted, ⟨registry, st, 0, false⟩)) := by
  constructor
  · intro h
    unfold cmdTagRemove
    rw [if_pos h]
  · intro h1 h2 h3 h4 h5
    unfold cmdTagEdit
    rw [if_neg h1, if_neg (by simpa using h2), if_neg h3, if_pos ⟨h4, h5⟩]

/-- Record tagged with bug, used by the C4 witness. -/
def demoRecTagged : IssueRec :=
  { id := ⟨"alice", 7⟩, created := "c", updated := "c", description := "z"
    tags := ["bug"], blocked_by := [], status := .OPEN, log := [] }

/-- Witness for C4: declining the prompt for a used tag leaves the
registry, the store and the save count untouched for both remove and
rename. -/
theorem tag_decline_changes_nothing_witness :
    cmdTagRemove [demoRecTagged] { "bug" } { "bug" } (fun _ => false) ("t") =
      ⟨{ "bug" }, [demoRecTagged], 0, false⟩ ∧
    cmdTagEdit [demoRecTagged] { "bug" } ("bug") ("feature") false ("t") =
      (.aborted, ⟨{ "bug" }, [demoRecTagged], 0, false⟩) :=
  ⟨(tag_decline_changes_nothing [demoRecTagged] { "bug" } { "bug" } (fun _ => false)
      ("bug") ("feature") false ("t")).1 (by decide),
   (tag_decline_changes_nothing [demoRecTagged] { "bug" } { "bug" } (fun _ => false)
      ("bug") ("feature") false ("t")).2 (by decide) (by decide) (by decide)
      (by decide) rfl⟩

/-!
The identifier resolver: IssueID.shorten and IssueID.load from
src/ishu/models.py.  Tokens are lists of characters; numbers are printed
and parsed in decimal.
-/

/-- Character class [a-zA-Z] of the ID regex. -/
def isAsciiAlpha (c : Char) : Bool :=
  decide ((65 ≤ c.toNat ∧ c.toNat ≤ 90) ∨ (97 ≤ c.toNat ∧ c.toNat ≤ 122))

/-- Character class of the digit part of the ID regex, modeled as the
ASCII digits (the only digits the tracker itself ever writes). -/
def isAsciiDigit (c : Char) : Bool :=
  decide (48 ≤ c.toNat ∧ c.toNat ≤ 57)

/-- Decimal digit as a character. -/
def digitChar (d : Nat) : Char := Char.ofNat (48 + d)

/-- Fueled digit expansion, most significant first. -/
def natCharsAux : Nat → Nat → List Char
  | 0, _ => []
  | fuel + 1, n =>
    if n = 0 then []
    else natCharsAux fuel (n / 10) ++ [digitChar (n % 10)]

/-- Embeds str() on a nonnegative integer. -/
def natChars (n : Nat) : List Char :=
  if n = 0 then ['0'] else natCharsAux n n

/-- Embeds int() on a string of decimal digits. -/
def charsToNat (cs : List Char) : Nat :=
  cs.foldl (fun acc c => acc * 10 + (c.toNat - 48)) 0

lemma digitChar_toNat {d : Nat} (h : d < 10) : (digitChar d).toNat = 48 + d := by
  interval_cases d <;> decide

lemma digitChar_isDigit {d : Nat} (h : d < 10) : isAsciiDigit (digitChar d) = true := by
  interval_cases d <;> decide

lemma digit_not_alpha {c : Char} (h : isAsciiDigit c = true) : isAsciiAlpha c = false := by
  unfold isAsciiDigit at h
  unfold isAsciiAlpha
  simp only [decide_eq_true_eq] at h
  simp only [decide_eq_false_iff_not]
  omega

lemma natCharsAux_digits : ∀ fuel n : Nat, ∀ c ∈ natCharsAux fuel n,
    isAsciiDigit c = true := by
  intro fuel
  induction fuel with
  | zero => intro n c hc; simp [natCharsAux] at hc
  | succ fuel ih =>
    intro n c hc
    rw [natCharsAux] at hc
    split_ifs at hc with hn
    · simp at hc
    · rcases List.mem_append.mp hc with h | h
      · exact ih _ c h
      · rw [List.mem_singleton.mp h]
        exact digitChar_isDigit (Nat.mod_lt _ (by norm_num))

lemma charsToNat_append_digit (cs : List Char) (c : Char) :
    charsToNat (cs ++ [c]) = charsToNat cs * 10 + (c.toNat - 48) := by
  unfold charsToNat
  rw [List.foldl_append]
  rfl

lemma natCharsAux_val : ∀ fuel n : Nat, n ≤ fuel →
    charsToNat (natCharsAux fuel n) = n := by
  intro fuel
  induction fuel with
  | zero =>
    intro n h
    have hn : n = 0 := by omega
    subst hn
    rfl
  | succ fuel ih =>
    intro n h
    by_cases hn : n = 0
    · subst hn; rfl
    · rw [natCharsAux, if_neg hn, charsToNat_append_digit,
        ih (n / 10) (by omega), digitChar_toNat (Nat.mod_lt _ (by norm_num))]
      omega

lemma natChars_ne_nil (n : Nat) : natChars n ≠ [] := by
  unfold natChars
  split_ifs with h
  · simp
  · cases hn : n with
    | zero => exact absurd hn h
    | succ m =>
      rw [natCharsAux]
      simp

lemma natChars_digits (n : Nat) : ∀ c ∈ natChars n, isAsciiDigit c = true := by
  unfold natChars
  split_ifs with h
  · intro c hc
    rw [List.mem_singleton.mp hc]
    decide
  · exact natCharsAux_digits n n

lemma charsToNat_natChars (n : Nat) : charsToNat (natChars n) = n := by
  unfold natChars
  split_ifs with h
  · subst h; decide
  · exact natCharsAux_val n n (le_refl n)

lemma takeWhile_append_all {p : Char → Bool} : ∀ (u v : List Char),
    (∀ c ∈ u, p c = true) → (u ++ v).takeWhile p = u ++ v.takeWhile p := by
  intro u v hu
  induction u with
  | nil => rfl
  | cons a t ih =>
    rw [List.cons_append, List.takeWhile_cons_of_pos (hu a (List.mem_cons_self _ _)),
      ih (fun c hc => hu c (List.mem_cons_of_mem _ hc)), List.cons_append]

lemma dropWhile_append_all {p : Char → Bool} : ∀ (u v : List Char),
    (∀ c ∈ u, p c = true) → (u ++ v).dropWhile p = v.dropWhile p := by
  intro u v hu
  induction u with
  | nil => rfl
  | cons a t ih =>
    rw [List.cons_append, List.dropWhile_cons_of_pos (hu a (List.mem_cons_self _ _)),
      ih (fun c hc => hu c (List.mem_cons_of_mem _ hc))]

lemma takeWhile_alpha_of_digits (cs : List Char)
    (h : ∀ c ∈ cs, isAsciiDigit c = true) : cs.takeWhile isAsciiAlpha = [] := by
  cases cs with
  | nil => rfl
  | cons a t =>
    rw [List.takeWhile_cons_of_neg]
    rw [digit_not_alpha (h a (List.mem_cons_self _ _))]
    simp

lemma dropWhile_alpha_of_digits (cs : List Char)
    (h : ∀ c ∈ cs, isAsciiDigit c = true) : cs.dropWhile isAsciiAlpha = cs := by
  cases cs with
  | nil => rfl
  | cons a t =>
    rw [List.dropWhile_cons_of_neg]
    rw [digit_not_alpha (h a (List.mem_cons_self _ _))]
    simp

/-- Embeds re.fullmatch of ([a-zA-Z]+)?(\d+): the maximal leading run of
letters (None when empty) and the integer value of the digit tail; no
match when the tail is empty or holds a non-digit. -/
def parseAbbr (cs : List Char) : Option (Option (List Char) × Nat) :=
  if (cs.dropWhile isAsciiAlpha) ≠ [] ∧ (cs.dropWhile isAsciiAlpha).all isAsciiDigit then
    some (if cs.takeWhile isAsciiAlpha = [] then none else some (cs.takeWhile isAsciiAlpha),
      charsToNat (cs.dropWhile isAsciiAlpha))
  else none

/-- Failure modes of IssueID.load: the ValueError on a malformed token
and the KeyErrors for user resolution and the final existence check. -/
inductive LoadError where
  | invalidFormat
  | unknownUser
  | ambiguousUser
  | notFound
  deriving DecidableEq, Repr

/-- Embeds the user-resolution block of IssueID.load: no group defaults
to the acting user, an exact username wins, otherwise the group must be
the start of exactly one known username. -/
def resolveUser (users : List String) (configUser : String)
    (userPart : Option (List Char)) : Except LoadError String :=
  match userPart with
  | none => .ok configUser
  | some um =>
    if String.mk um ∈ users then .ok (String.mk um)
    else
      match users.filter (fun u => um.isPrefixOf u.data) with
      | [] => .error .unknownUser
      | [u] => .ok u
      | _ => .error .ambiguousUser

/-- Embeds the final existence check of IssueID.load. -/
def checkExists (existing : List IssueID) (id : IssueID) : Except LoadError IssueID :=
  if id ∈ existing then .ok id else .error .notFound

/-- Embeds IssueID.load: with restrict_to_own the token is the bare
number of one of the acting user's own issues, otherwise the token is
parsed and the user part resolved against the known usernames; every
path ends in the existence check. -/
def loadIssueID (users : List String) (existing : List IssueID) (configUser : String)
    (token : List Char) (restrictToOwn : Bool) : Except LoadError IssueID :=
  if restrictToOwn then
    if token ≠ [] ∧ token.all isAsciiDigit then
      checkExists existing ⟨configUser, charsToNat token⟩
    else .error .invalidFormat
  else
    match parseAbbr token with
    | none => .error .invalidFormat
    | some (userPart, num) =>
      match resolveUser users configUser userPart with
      | .error e => .error e
      | .ok user => checkExists existing ⟨user, num⟩

/-- Whether exactly one known username starts with the first i characters
of the given username (the break condition of the loop in
IssueID.shorten). -/
def uniqueAbbrev (users : List String) (user : String) (i : Nat) : Bool :=
  (users.filter (fun u => (user.data.take i).isPrefixOf u.data)).length == 1

/-- Embeds the loop of IssueID.shorten for a foreign user: the first
i in range(1, len(user) - 1) whose user[:i] matches exactly one known
username, falling back to the full username when the loop completes. -/
def shortenUser (users : List String) (user : String) : List Char :=
  match (List.range' 1 (user.length - 2)).find? (fun i => uniqueAbbrev users user i) with
  | some i => user.data.take i
  | none => user.data

/-- Embeds IssueID.shorten: no user part for the acting user's own
issues, else the abbreviated or full username, followed by the number. -/
def shorten (users : List String) (configUser : String) (id : IssueID) : List Char :=
  (if id.user = configUser then [] else shortenUser users id.user) ++ natChars id.num

/-- find? on an arithmetic range returns the least element satisfying the
predicate. -/
lemma find?_range'_first {p : Nat → Bool} : ∀ {s n i : Nat},
    (List.range' s n).find? p = some i →
    p i = true ∧ s ≤ i ∧ i < s + n ∧ ∀ j, s ≤ j → j < i → p j = false := by
  intro s n
  induction n generalizing s with
  | zero => intro i h; simp [List.range'] at h
  | succ n ih =>
    intro i h
    rw [List.range'] at h
    by_cases hs : p s = true
    · rw [List.find?_cons_of_pos _ hs] at h
      cases h
      exact ⟨hs, le_refl s, by omega, fun j h1 h2 => absurd h1 (by omega)⟩
    · rw [List.find?_cons_of_neg _ hs] at h
      obtain ⟨hp, hge, hlt, hmin⟩ := ih h
      refine ⟨hp, by omega, by omega, fun j h1 h2 => ?_⟩
      by_cases hj : j = s
      · subst hj
        simpa using hs
      · exact hmin j (by omega) h2

/-- Parsing a token built from letters followed by a printed number
recovers the letter part and the number. -/
lemma parseAbbr_alpha_num (u : List Char) (n : Nat)
    (hu : ∀ c ∈ u, isAsciiAlpha c = true) :
    parseAbbr (u ++ natChars n) =
      some ((if u = [] then none else some u), n) := by
  unfold parseAbbr
  have hd : (u ++ natChars n).dropWhile isAsciiAlpha = natChars n := by
    rw [dropWhile_append_all u _ hu]
    exact dropWhile_alpha_of_digits _ (natChars_digits n)
  have ht : (u ++ natChars n).takeWhile isAsciiAlpha = u := by
    rw [takeWhile_append_all u _ hu, takeWhile_alpha_of_digits _ (natChars_digits n),
      List.append_nil]
  rw [hd, ht, if_pos ⟨natChars_ne_nil n, List.all_eq_true.mpr (natChars_digits n)⟩,
    charsToNat_natChars]

/-- Two distinct members force a list length of at least two. -/
lemma one_lt_length_of_two_mem {α : Type} {a b : α} {l : List α}
    (ha : a ∈ l) (hb : b ∈ l) (hab : a ≠ b) : 1 < l.length := by
  cases l with
  | nil => simp at ha
  | cons x t =>
    cases t with
    | nil =>
      rw [List.mem_singleton] at ha hb
      exact absurd (ha.trans hb.symm) hab
    | cons y t2 => simp [List.length_cons]

/-- C1: for an issue that exists on disk and whose user either is the
acting user or has an abbreviation matched by exactly one known
username, resolving the token produced by shorten yields the original
id. -/
theorem shorten_load_roundtrip (users : List String) (existing : List IssueID)
    (configUser : String) (id : IssueID)
    (hmem : id.user ∈ users)
    (halpha : ∀ c ∈ id.user.data, isAsciiAlpha c = true)
    (hex : id ∈ existing)
    (habbr : id.user = configUser ∨
      ∃ i, 1 ≤ i ∧ i + 1 < id.user.length ∧ uniqueAbbrev users id.user i = true) :
    loadIssueID users existing configUser (shorten users configUser id) false = .ok id := by
  have heta : IssueID.mk id.user id.num = id := rfl
  by_cases hcfg : id.user = configUser
  · unfold shorten
    rw [if_pos hcfg, List.nil_append]
    have hparse : parseAbbr (natChars id.num) = some (none, id.num) := by
      have h := parseAbbr_alpha_num [] id.num (by intro c hc; simp at hc)
      rw [List.nil_append] at h
      simpa using h
    unfold loadIssueID
    rw [if_neg (by simp)]
    rw [hparse]
    show checkExists existing ⟨configUser, id.num⟩ = .ok id
    unfold checkExists
    rw [← hcfg, heta, if_pos hex]
  · obtain ⟨i, hi1, hi2, hiu⟩ := habbr.resolve_left hcfg
    have hlen : id.user.data.length = id.user.length := rfl
    have hfind : ∃ i0, (List.range' 1 (id.user.length - 2)).find?
        (fun i => uniqueAbbrev users id.user i) = some i0 := by
      rw [← Option.isSome_iff_exists]
      rw [List.find?_isSome]
      exact ⟨i, List.mem_range'_1.mpr ⟨hi1, by omega⟩, hiu⟩
    obtain ⟨i0, hi0⟩ := hfind
    obtain ⟨hp0, hge0, hlt0, _⟩ := find?_range'_first hi0
    have hi0lt : i0 + 1 < id.user.length := by omega
    unfold shorten shortenUser
    rw [if_neg hcfg, hi0]
    have hpre_alpha : ∀ c ∈ id.user.data.take i0, isAsciiAlpha c = true :=
      fun c hc => halpha c (List.take_subset _ _ hc)
    unfold loadIssueID
    rw [if_neg (by simp)]
    rw [parseAbbr_alpha_num _ _ hpre_alpha]
    have hne : id.user.data.take i0 ≠ [] := by
      intro hcontra
      have hlt := congrArg List.length hcontra
      rw [List.length_take] at hlt
      simp at hlt
      omega
    rw [if_neg hne]
    show (match resolveUser users configUser (some (id.user.data.take i0)) with
      | Except.error e => (Except.error e : Except LoadError IssueID)
      | Except.ok user => checkExists existing ⟨user, id.num⟩) = Except.ok id
    have hpref_id : (id.user.data.take i0).isPrefixOf id.user.data = true := by
      rw [List.isPrefixOf_iff_prefix]
      exact List.take_prefix i0 _
    have hidf : id.user ∈ users.filter
        (fun u => (id.user.data.take i0).isPrefixOf u.data) :=
      List.mem_filter.mpr ⟨hmem, hpref_id⟩
    have hlen1 : (users.filter
        (fun u => (id.user.data.take i0).isPrefixOf u.data)).length = 1 := by
      have := hp0
      unfold uniqueAbbrev at this
      simpa using this
    have hpu : String.mk (id.user.data.take i0) ∉ users := by
      intro hin
      have hne_user : String.mk (id.user.data.take i0) ≠ id.user := by
        intro hcontra
        have hdata : id.user.data.take i0 = id.user.data :=
          congrArg String.data hcontra
        have hldata := congrArg List.length hdata
        rw [List.length_take] at hldata
        omega
      have hf1 : String.mk (id.user.data.take i0) ∈ users.filter
          (fun u => (id.user.data.take i0).isPrefixOf u.data) := by
        refine List.mem_filter.mpr ⟨hin, ?_⟩
        simp [List.isPrefixOf_iff_prefix]
      have := one_lt_length_of_two_mem hf1 hidf hne_user
      omega
    obtain ⟨u0, hu0⟩ := List.length_eq_one.mp hlen1
    have hu0id : u0 = id.user := by
      rw [hu0] at hidf
      exact (List.mem_singleton.mp hidf).symm
    have hres : resolveUser users configUser (some (id.user.data.take i0)) =
        Except.ok id.user := by
      simp only [resolveUser]
      rw [if_neg hpu, hu0]
      show Except.ok u0 = Except.ok id.user
      rw [hu0id]
    rw [hres]
    show checkExists existing ⟨id.user, id.num⟩ = Except.ok id
    unfold checkExists
    rw [heta, if_pos hex]

/-- C5: for a foreign user, shorten emits the abbreviated username then
the number, where the abbreviation search tries lengths i with
1 ≤ i < length - 1 in increasing order (Python range(1, len - 1)),
stops at the first length matched by exactly one known username, and
falls back to the full username when no tried length is unambiguous. -/
theorem shorten_search_order (users : List String) (configUser : String)
    (id : IssueID) (hne : id.user ≠ configUser) :
    shorten users configUser id = shortenUser users id.user ++ natChars id.num ∧
    ((∃ i, (1 ≤ i ∧ i + 1 < id.user.length) ∧ uniqueAbbrev users id.user i = true ∧
        (∀ j, 1 ≤ j → j < i → uniqueAbbrev users id.user j = false) ∧
        shortenUser users id.user = id.user.data.take i) ∨
      ((∀ i, 1 ≤ i → i + 1 < id.user.length → uniqueAbbrev users id.user i = false) ∧
        shortenUser users id.user = id.user.data)) := by
  constructor
  · unfold shorten
    rw [if_neg hne]
  · unfold shortenUser
    cases hfind : (List.range' 1 (id.user.length - 2)).find?
        (fun i => uniqueAbbrev users id.user i) with
    | some i0 =>
      left
      obtain ⟨hp, hge, hlt, hmin⟩ := find?_range'_first hfind
      exact ⟨i0, ⟨hge, by omega⟩, hp, fun j h1 h2 => hmin j h1 h2, rfl⟩
    | none =>
      right
      refine ⟨fun i h1 h2 => ?_, rfl⟩
      have h := List.find?_eq_none.mp hfind i (List.mem_range'_1.mpr ⟨h1, by omega⟩)
      simpa using h

/-- Witness for C1: user bob abbreviates to b among alice and bob, and
the token round-trips to bob's issue 3. -/
theorem shorten_load_roundtrip_witness :
    (⟨"bob", 3⟩ : IssueID) ∈ [(⟨"bob", 3⟩ : IssueID)] ∧
    loadIssueID ["alice", "bob"] [⟨"bob", 3⟩] ("alice")
      (shorten ["alice", "bob"] ("alice") ⟨"bob", 3⟩) false = .ok ⟨"bob", 3⟩ :=
  ⟨by decide,
    shorten_load_roundtrip ["alice", "bob"] [⟨"bob", 3⟩] ("alice") ⟨"bob", 3⟩
      (by decide) (by decide) (by decide)
      (Or.inr ⟨1, by decide, by decide, by decide⟩)⟩

/-- Witness for C5 at the same concrete input. -/
theorem shorten_search_order_witness :
    shorten ["alice", "bob"] ("alice") ⟨"bob", 3⟩ =
      shortenUser ["alice", "bob"] ("bob") ++ natChars 3 ∧
    ((∃ i, (1 ≤ i ∧ i + 1 < ("bob" : String).length) ∧
        uniqueAbbrev ["alice", "bob"] ("bob") i = true ∧
        (∀ j, 1 ≤ j → j < i → uniqueAbbrev ["alice", "bob"] ("bob") j = false) ∧
        shortenUser ["alice", "bob"] ("bob") = ("bob" : String).data.take i) ∨
      ((∀ i, 1 ≤ i → i + 1 < ("bob" : String).length →
          uniqueAbbrev ["alice", "bob"] ("bob") i = false) ∧
        shortenUser ["alice", "bob"] ("bob") = ("bob" : String).data)) :=
  shorten_search_order ["alice", "bob"] ("alice") ⟨"bob", 3⟩ (by decide)

end Ishu
